import Mathlib

/-!
Verification development for the meilisearch synchronization plugin.

The definitions below are a shallow embedding of the plugin's document
synchronization engine:

* `getLanguageIndexKey`, `addDocumentsPhysicalKey`, `searchPhysicalKey`,
  `deleteDocumentsPhysicalKey` embed the physical-index-key derivation of
  `MeiliSearchService` (src/modules/meilisearch/services/meilisearch.ts).
* `getIndexesWithFetchersStep` embeds the index registry
  (src/workflows/steps/get-indexes-with-fetchers.ts).
* `syncDocumentsStep` embeds the single-index sync step
  (src/workflows/steps/sync-documents.ts).
* `syncOneIndex` / `bulkSyncDocumentsStep` embed the bulk orchestrator
  (src/workflows/steps/bulk-sync-documents.ts).
* `meilisearchIndexSyncJob` / `batchLoop` embed the batch iteration driver
  (src/utils/index-sync-job-template.ts).
* `getDocumentFetcher`, `getFieldsForType`, `builtinProductsFetchQuery` embed
  the document fetcher resolver and the built-in products fetcher.

External capabilities (the meilisearch client and the configured fetchers) are
modelled as explicit function records (`EngineCaps`); fallible operations
return `Except String`.  JavaScript truthiness of optional strings and numbers
(`undefined` and `""`/`0` are falsy) is modelled explicitly by `strTruthy`,
`jsOrString`, `natTruthy` and `jsOrNat`.  Wall-clock fields
(`processingTime`) are not modelled.
-/

set_option maxHeartbeats 1000000

namespace MeiliPlugin

/-- JS truthiness of an optional string: `undefined` and `""` are falsy. -/
def strTruthy : Option String → Bool
  | none => false
  | some s => s != ""

/-- JS `a || b` for an optional string `a` and a string default `b`. -/
def jsOrString (a : Option String) (b : String) : String :=
  match a with
  | some s => if s = "" then b else s
  | none => b

/-- JS truthiness of an optional number (modelled on `Nat`): `undefined` and `0` are falsy. -/
def natTruthy : Option Nat → Bool
  | none => false
  | some n => n != 0

/-- JS `a || b` for an optional number `a` and a default `b`. -/
def jsOrNat (a : Option Nat) (b : Nat) : Nat :=
  match a with
  | some n => if n = 0 then b else n
  | none => b

/-- The `I18nStrategy` union type (`'separate-index' | 'field-suffix'`). -/
inductive I18nStrategy where
  | separateIndex
  | fieldSuffix
deriving DecidableEq, Repr

/-- The `I18nConfig` interface (translatable fields are irrelevant here). -/
structure I18nConfig where
  strategy : I18nStrategy
  languages : List String
  defaultLanguage : String
deriving DecidableEq, Repr

/-- One entry of `MeilisearchPluginOptions.settings`.  The `fetcher` and
`transformer` capabilities are opaque; only their presence matters to the
sync engine, so they are modelled as presence flags. -/
structure IndexConfig where
  type : Option String := none
  enabled : Option Bool := none
  fields : Option (List String) := none
  fetcher : Bool := false
  transformer : Bool := false
deriving DecidableEq, Repr

/-- The plugin options relevant to the sync engine: the `settings` object
(as an association list in insertion order, keys unique) and the optional
`i18n` configuration. -/
structure PluginConfig where
  settings : List (String × IndexConfig) := []
  i18n : Option I18nConfig := none
deriving DecidableEq, Repr

/-- The keys of a JS object are unique; embeddings of `Object.entries`
results carry this fact as a hypothesis. -/
def keysNodup (settings : List (String × IndexConfig)) : Prop :=
  (settings.map Prod.fst).Nodup

/-- `MeiliSearchService.getLanguageIndexKey`: the base key unless the
strategy is `separate-index` and a (truthy) language is given, in which case
`baseKey + "_" + language`. -/
def getLanguageIndexKey (i18n : Option I18nConfig) (baseKey : String)
    (language : Option String) : String :=
  match i18n, language with
  | some c, some l =>
    if c.strategy = I18nStrategy.separateIndex ∧ l ≠ "" then baseKey ++ "_" ++ l
    else baseKey
  | _, _ => baseKey

/-- Physical index key addressed by `MeiliSearchService.search`. -/
def searchPhysicalKey (i18n : Option I18nConfig) (indexKey : String)
    (language : Option String) : String :=
  getLanguageIndexKey i18n indexKey language

/-- Physical index key addressed by `MeiliSearchService.deleteDocuments`. -/
def deleteDocumentsPhysicalKey (i18n : Option I18nConfig) (indexKey : String)
    (language : Option String) : String :=
  getLanguageIndexKey i18n indexKey language

/-- Physical index key addressed by `MeiliSearchService.addDocuments`: under
`separate-index` the language defaults to `i18n.defaultLanguage`
(`language || i18n.defaultLanguage`); otherwise the base key is used. -/
def addDocumentsPhysicalKey (i18n : Option I18nConfig) (indexKey : String)
    (language : Option String) : String :=
  match i18n with
  | some c =>
    if c.strategy = I18nStrategy.separateIndex then
      getLanguageIndexKey i18n indexKey (some (jsOrString language c.defaultLanguage))
    else indexKey
  | none => indexKey

/-- `SearchUtils.indexTypes.PRODUCTS`. -/
def productsType : String := "products"

/-- `MeiliSearchService.getFieldsForType`: union of the `fields` arrays of all
enabled configurations of the given type (dedicated `Set`, insertion order),
or `["*"]` when empty. -/
def getFieldsForType (cfg : PluginConfig) (t : String) : List String :=
  let collected :=
    (cfg.settings.filter fun e => e.2.type == some t && e.2.enabled != some false).foldl
      (fun acc e =>
        match e.2.fields with
        | some fs => fs.foldl (fun a f => if f ∈ a then a else a ++ [f]) acc
        | none => acc) []
  if collected.isEmpty then ["*"] else collected

/-- What `MeiliSearchService.getDocumentFetcher` resolves to. -/
inductive ResolvedFetcher where
  | custom
  | builtinProducts
deriving DecidableEq, Repr

/-- `MeiliSearchService.getDocumentFetcher`: `null` for an absent or disabled
configuration; the custom fetcher when configured; the built-in products
fetcher when `type` is the products category; otherwise `null`. -/
def getDocumentFetcher (cfg : PluginConfig) (indexKey : String) : Option ResolvedFetcher :=
  match cfg.settings.lookup indexKey with
  | none => none
  | some ic =>
    if ic.enabled = some false then none
    else if ic.fetcher then some .custom
    else if ic.type = some productsType then some .builtinProducts
    else none

/-- JS object literal with spread, `\x7b ...base, ...extra \x7d`: the keys of
`base` (values overridden by `extra` when present) followed by the keys of
`extra` that are not in `base`, in order. -/
def spreadMerge (base extra : List (String × String)) : List (String × String) :=
  base.map (fun e => (e.1, (extra.lookup e.1).getD e.2)) ++
    extra.filter fun e => (base.lookup e.1).isNone

/-- The argument object the built-in products fetcher passes to
`queryService.graph`. -/
structure ProductGraphQuery where
  entity : String
  fields : List String
  take : Option Nat
  skip : Option Nat
  filters : List (String × String)
deriving DecidableEq, Repr

/-- The query issued by the built-in products fetcher inside
`getDocumentFetcher`: entity `product`, the fields for the products type,
`limit`/`offset` mapped to `take`/`skip`, and the caller's filters spread over
a base `status: published` entry. -/
def builtinProductsFetchQuery (cfg : PluginConfig) (filters : List (String × String))
    (limit offset : Option Nat) : ProductGraphQuery :=
  { entity := "product"
    fields := getFieldsForType cfg productsType
    take := limit
    skip := offset
    filters := spreadMerge [("status", "published")] filters }

/-! ## Index registry (get-indexes-with-fetchers.ts) -/

/-- The `IndexWithFetcher` descriptor produced by the registry. -/
structure IndexWithFetcher where
  indexKey : String
  type : Option String
  language : Option String
deriving DecidableEq, Repr

/-- `language ? [language] : i18n.languages` from the registry step. -/
def targetLanguages (language : Option String) (languages : List String) : List String :=
  match language with
  | some l => if l ≠ "" then [l] else languages
  | none => languages

/-- The descriptors the registry loop pushes for one settings entry: nothing
when disabled or when not carrying a custom fetcher; one descriptor per target
language under `separate-index` with a non-empty language list; otherwise one
descriptor with the caller's language passed through. -/
def registryEntry (i18n : Option I18nConfig) (language : Option String)
    (entry : String × IndexConfig) : List IndexWithFetcher :=
  if entry.2.enabled = some false then []
  else if !entry.2.fetcher then []
  else
    match i18n with
    | some c =>
      if c.strategy = I18nStrategy.separateIndex ∧ c.languages.length > 0 then
        (targetLanguages language c.languages).map fun l =>
          { indexKey := entry.1, type := entry.2.type, language := some l }
      else [{ indexKey := entry.1, type := entry.2.type, language := language }]
    | none => [{ indexKey := entry.1, type := entry.2.type, language := language }]

/-- `getIndexesWithFetchersStep`: the `for`-loop over `Object.entries(settings)`
accumulating `registryEntry` pushes. -/
def getIndexesWithFetchersStep (cfg : PluginConfig) (language : Option String) :
    List IndexWithFetcher :=
  cfg.settings.foldl (fun acc e => acc ++ registryEntry cfg.i18n language e) []

/-- Modelled from the spec (§4.1 / C8): drop disabled and fetcherless
configurations; under `separate-index` with a non-empty language list expand
each surviving index per language (just the requested language when one was
given); otherwise one descriptor per surviving index with the caller's
language unmodified; insertion order, then language order. -/
def registrySpec (cfg : PluginConfig) (language : Option String) :
    List IndexWithFetcher :=
  let surviving := cfg.settings.filter fun e =>
    !(e.2.enabled == some false) && e.2.fetcher
  match cfg.i18n with
  | some c =>
    if c.strategy = I18nStrategy.separateIndex ∧ c.languages ≠ [] then
      let expandLangs := match language with
        | some l => [l]
        | none => c.languages
      surviving.flatMap fun e => expandLangs.map fun l =>
        { indexKey := e.1, type := e.2.type, language := some l }
    else surviving.map fun e => { indexKey := e.1, type := e.2.type, language := language }
  | none => surviving.map fun e => { indexKey := e.1, type := e.2.type, language := language }

/-! ## Documents, capabilities and effects -/

/-- A raw/search document: only its identity fields (`id`, with the `_id`
fallback modelled as `idAlt`) and an opaque payload are relevant. -/
structure Doc where
  id : Option String := none
  idAlt : Option String := none
  payload : String := ""
deriving DecidableEq, Repr

/-- `doc.id || doc._id` (JS truthiness: `""` falls through to `_id`). -/
def docIdentity (d : Doc) : Option String :=
  match d.id with
  | some s => if s = "" then d.idAlt else some s
  | none => d.idAlt

/-- `documents.map((doc) => doc.id || doc._id).filter(Boolean)`. -/
def docIds (docs : List Doc) : List String :=
  docs.filterMap fun d =>
    match docIdentity d with
    | some s => if s = "" then none else some s
    | none => none

/-- One observable call against an external capability.  The arguments are
recorded at the service-call level (logical index key plus language); the
physical key derivation is the `*PhysicalKey` functions above. -/
inductive Effect where
  | fetchCall (indexKey : String)
  | searchCall (indexKey : String) (language : Option String) (candidateIds : List String)
  | addCall (indexKey : String) (language : Option String) (docs : List Doc)
  | deleteCall (indexKey : String) (language : Option String) (ids : List String)
deriving DecidableEq, Repr

def Effect.isDeleteCall : Effect → Bool
  | .deleteCall _ _ _ => true
  | _ => false

def Effect.isSearchCall : Effect → Bool
  | .searchCall _ _ _ => true
  | _ => false

/-- The external capabilities consumed by the sync engine: the resolved
document fetcher, the membership probe (`search` restricted to its hit ids),
`addDocuments` and `deleteDocuments`.  Each may fail with a message. -/
structure EngineCaps where
  fetch : String → List (String × String) → Option String → Option Nat → Option Nat →
    Except String (List Doc)
  probe : String → Option String → List String → Except String (List String)
  add : String → Option String → List Doc → Except String Unit
  del : String → Option String → List String → Except String Unit

/-- `MeiliSearchService.fetchDocuments`: resolve the fetcher; when none
resolves return `[]` without any call, otherwise invoke it. -/
def fetchDocuments (cfg : PluginConfig) (caps : EngineCaps) (indexKey : String)
    (filters : List (String × String)) (limit offset : Option Nat)
    (language : Option String) : Except String (List Doc) × List Effect :=
  match getDocumentFetcher cfg indexKey with
  | none => (.ok [], [])
  | some _ => (caps.fetch indexKey filters language limit offset, [Effect.fetchCall indexKey])

/-- The membership-probe stage shared by the sync steps: skipped when there
are no candidate ids; a probe failure is caught and treated as "no documents
exist yet" (the index may not exist); the issued search call is recorded. -/
def probeStage (caps : EngineCaps) (k : String) (lang : Option String)
    (documentIds : List String) (tr0 : List Effect) : List String × List Effect :=
  if documentIds.isEmpty then ([], tr0)
  else
    match caps.probe k lang documentIds with
    | .ok hits => (hits, tr0 ++ [Effect.searchCall k lang documentIds])
    | .error _ => ([], tr0 ++ [Effect.searchCall k lang documentIds])

/-! ## Single-index sync step (sync-documents.ts) -/

structure SyncDocumentsStepInput where
  indexKey : String
  filters : List (String × String) := []
  limit : Option Nat := none
  offset : Option Nat := none
  language : Option String := none
deriving Repr

structure SyncDocumentsStepResult where
  documents : List Doc
  added : Nat
  deleted : Nat
deriving DecidableEq, Repr

/-- `syncDocumentsStep`: short-circuit on a missing/disabled configuration;
fetch; short-circuit on an empty fetch; probe the index for the fetched
identities (a probe failure is caught and treated as "nothing exists yet");
upsert every fetched document; delete the probed identities missing from the
fetch window.  Errors of fetch/add/delete propagate. -/
def syncDocumentsStep (cfg : PluginConfig) (caps : EngineCaps)
    (inp : SyncDocumentsStepInput) :
    Except String (SyncDocumentsStepResult × List Effect) :=
  match cfg.settings.lookup inp.indexKey with
  | none => .ok (⟨[], 0, 0⟩, [])
  | some ic =>
    if ic.enabled = some false then .ok (⟨[], 0, 0⟩, [])
    else
      match fetchDocuments cfg caps inp.indexKey inp.filters inp.limit inp.offset inp.language with
      | (.error e, _) => .error e
      | (.ok documents, tr0) =>
        if documents.isEmpty then .ok (⟨[], 0, 0⟩, tr0)
        else
          let documentIds := docIds documents
          let probeStep := probeStage caps inp.indexKey inp.language documentIds tr0
          let documentsToDelete := probeStep.1.filter fun i => !(documentIds.contains i)
          match caps.add inp.indexKey inp.language documents with
          | .error e => .error e
          | .ok _ =>
            let tr2 := probeStep.2 ++ [Effect.addCall inp.indexKey inp.language documents]
            if documentsToDelete.isEmpty then
              .ok (⟨documents, documents.length, documentsToDelete.length⟩, tr2)
            else
              match caps.del inp.indexKey inp.language documentsToDelete with
              | .error e => .error e
              | .ok _ =>
                .ok (⟨documents, documents.length, documentsToDelete.length⟩,
                  tr2 ++ [Effect.deleteCall inp.indexKey inp.language documentsToDelete])

/-! ## Bulk sync step (bulk-sync-documents.ts) -/

structure IndexSyncResult where
  indexKey : String
  language : Option String
  success : Bool
  documents : List Doc
  added : Nat
  deleted : Nat
  error : Option String := none
deriving DecidableEq, Repr

/-- The per-descriptor body of `bulkSyncDocumentsStep` (its `try`/`catch`):
any thrown error is captured into a `success := false` record for this
descriptor only.  `processingTime` (wall clock) is not modelled. -/
def syncOneIndex (cfg : PluginConfig) (caps : EngineCaps)
    (filters : List (String × String)) (limit offset : Option Nat)
    (d : IndexWithFetcher) : IndexSyncResult × List Effect :=
  match cfg.settings.lookup d.indexKey with
  | none => (⟨d.indexKey, d.language, true, [], 0, 0, none⟩, [])
  | some ic =>
    if ic.enabled = some false then (⟨d.indexKey, d.language, true, [], 0, 0, none⟩, [])
    else
      match fetchDocuments cfg caps d.indexKey filters limit offset d.language with
      | (.error e, tr) => (⟨d.indexKey, d.language, false, [], 0, 0, some e⟩, tr)
      | (.ok documents, tr0) =>
        if documents.isEmpty then (⟨d.indexKey, d.language, true, [], 0, 0, none⟩, tr0)
        else
          let documentIds := docIds documents
          let probeStep := probeStage caps d.indexKey d.language documentIds tr0
          let documentsToDelete := probeStep.1.filter fun i => !(documentIds.contains i)
          match caps.add d.indexKey d.language documents with
          | .error e =>
            (⟨d.indexKey, d.language, false, [], 0, 0, some e⟩,
              probeStep.2 ++ [Effect.addCall d.indexKey d.language documents])
          | .ok _ =>
            let tr2 := probeStep.2 ++ [Effect.addCall d.indexKey d.language documents]
            if documentsToDelete.isEmpty then
              (⟨d.indexKey, d.language, true, documents, documents.length,
                documentsToDelete.length, none⟩, tr2)
            else
              match caps.del d.indexKey d.language documentsToDelete with
              | .error e =>
                (⟨d.indexKey, d.language, false, [], 0, 0, some e⟩,
                  tr2 ++ [Effect.deleteCall d.indexKey d.language documentsToDelete])
              | .ok _ =>
                (⟨d.indexKey, d.language, true, documents, documents.length,
                  documentsToDelete.length, none⟩,
                  tr2 ++ [Effect.deleteCall d.indexKey d.language documentsToDelete])

/-- Accumulator of the `indexResults.forEach` totals pass. -/
structure BulkTotals where
  successful : Nat := 0
  failed : Nat := 0
  documents : Nat := 0
  added : Nat := 0
  deleted : Nat := 0
deriving DecidableEq, Repr

def bulkTotals (results : List IndexSyncResult) : BulkTotals :=
  results.foldl
    (fun a r =>
      { successful := a.successful + (if r.success then 1 else 0)
        failed := a.failed + (if r.success then 0 else 1)
        documents := a.documents + r.documents.length
        added := a.added + r.added
        deleted := a.deleted + r.deleted })
    {}

structure BulkSyncDocumentsStepResult where
  results : List IndexSyncResult
  totalProcessed : Nat
  totalSuccessful : Nat
  totalFailed : Nat
  totalDocuments : Nat
  totalAdded : Nat
  totalDeleted : Nat
deriving DecidableEq, Repr

/-- `bulkSyncDocumentsStep`: run every descriptor's isolated sync (the
`Promise.all` fan-out; each descriptor's calls stay internally ordered, the
interleaving across descriptors is immaterial and the traces are
concatenated), then total the outcomes. -/
def bulkSyncDocumentsStep (cfg : PluginConfig) (caps : EngineCaps)
    (filters : List (String × String)) (limit offset : Option Nat)
    (indexes : List IndexWithFetcher) : BulkSyncDocumentsStepResult × List Effect :=
  let pairs := indexes.map (syncOneIndex cfg caps filters limit offset)
  let results := pairs.map Prod.fst
  let t := bulkTotals results
  ({ results := results
     totalProcessed := indexes.length
     totalSuccessful := t.successful
     totalFailed := t.failed
     totalDocuments := t.documents
     totalAdded := t.added
     totalDeleted := t.deleted }, pairs.flatMap Prod.snd)

/-! ## Batch iteration driver (index-sync-job-template.ts) -/

structure IndexSyncJobData where
  indexKey : String
  filters : List (String × String) := []
  limit : Option Nat := none
  offset : Option Nat := none
  batchSize : Option Nat := none
deriving Repr

/-- Outcome of one job invocation.  `calls` records the `(limit, offset)`
window of every single-index sync invocation, in order; `usedLoop` records
whether the batch loop was entered.  `fuelOut` marks non-termination within
the given fuel. -/
inductive JobRun where
  | skipped
  | done (totalAdded totalDeleted : Nat) (calls : List (Option Nat × Option Nat))
      (usedLoop : Bool)
  | failed (msg : String) (calls : List (Option Nat × Option Nat)) (usedLoop : Bool)
  | fuelOut
deriving DecidableEq, Repr

def JobRun.callList : JobRun → List (Option Nat × Option Nat)
  | .done _ _ c _ => c
  | .failed _ c _ => c
  | _ => []

def JobRun.enteredLoop : JobRun → Bool
  | .done _ _ _ u => u
  | .failed _ _ u => u
  | .fuelOut => true
  | .skipped => false

/-- The `while (hasMore)` loop of `meilisearchIndexSyncJob`: sync a window of
`batchSize` at the current offset, accumulate, and stop when a window returns
strictly fewer documents than `batchSize`. -/
def batchLoop (cfg : PluginConfig) (caps : EngineCaps) (data : IndexSyncJobData) :
    Nat → Nat → Nat → Nat → List (Option Nat × Option Nat) → JobRun
  | 0, _, _, _, _ => .fuelOut
  | fuel + 1, off, tA, tD, calls =>
    let bs := data.batchSize.getD 100
    let calls1 := calls ++ [(some bs, some off)]
    match syncDocumentsStep cfg caps
        { indexKey := data.indexKey, filters := data.filters
          limit := some bs, offset := some off } with
    | .error e => .failed e calls1 true
    | .ok (r, _) =>
      let tA1 := tA + r.added
      let tD1 := tD + r.deleted
      if r.documents.length < bs then .done tA1 tD1 calls1 true
      else batchLoop cfg caps data fuel (off + bs) tA1 tD1 calls1

/-- `meilisearchIndexSyncJob`: skip without an index key; with a truthy
`limit` perform exactly one single-index sync with that `limit`/`offset`;
otherwise run the batch loop from `offset || 0`. -/
def meilisearchIndexSyncJob (cfg : PluginConfig) (caps : EngineCaps)
    (data : IndexSyncJobData) (fuel : Nat) : JobRun :=
  if data.indexKey = "" then .skipped
  else if natTruthy data.limit then
    match syncDocumentsStep cfg caps
        { indexKey := data.indexKey, filters := data.filters
          limit := data.limit, offset := data.offset } with
    | .ok (r, _) => .done r.added r.deleted [(data.limit, data.offset)] false
    | .error e => .failed e [(data.limit, data.offset)] false
  else
    batchLoop cfg caps data fuel (jsOrNat data.offset 0) 0 0 []

/-! ## Concrete fixtures used by witnesses and counterexamples -/

/-- A one-index configuration with a custom fetcher and no i18n. -/
def cfgK : PluginConfig := { settings := [("k", { fetcher := true })] }

/-- Capabilities of a source holding `docs` whose fetcher returns
`min(limit, remaining)` documents per window, over a search engine that
reports no prior documents and accepts every write. -/
def windowCaps (docs : List Doc) : EngineCaps :=
  { fetch := fun _ _ _ lim off => .ok ((docs.drop (off.getD 0)).take (lim.getD docs.length))
    probe := fun _ _ _ => .ok []
    add := fun _ _ _ => .ok ()
    del := fun _ _ _ => .ok () }

/-- A separate-index i18n configuration over English with default `en`. -/
def i18nEn : Option I18nConfig :=
  some { strategy := .separateIndex, languages := ["en"], defaultLanguage := "en" }

/-! ## C1: physical-key derivation across operations -/

/-- C1 (counterexample): under the separate-index strategy with no language
argument, `addDocuments` derives `indexKey + "_" + defaultLanguage` while the
membership-probe `search` derives the bare `indexKey`, so the derived physical
storage key is not identical across the operations addressing a physical
index, contrary to the claim. -/
theorem addDocuments_search_key_divergence :
    addDocumentsPhysicalKey i18nEn "products" none ≠
      searchPhysicalKey i18nEn "products" none := by
  decide

/-- C1 (amended): `search` and `deleteDocuments` always derive the identical
physical key `getLanguageIndexKey` (the base `indexKey`, or
`indexKey + "_" + language` under separate-index with a language set), and
`addDocuments` agrees with them whenever a (truthy) language is given; when no
language is given under separate-index, `addDocuments` substitutes the
configured `defaultLanguage` and derives
`getLanguageIndexKey` at that default instead. -/
theorem physical_key_derivation_consistency :
    ∀ (i18n : Option I18nConfig) (k : String) (lang : Option String),
      searchPhysicalKey i18n k lang = getLanguageIndexKey i18n k lang ∧
      deleteDocumentsPhysicalKey i18n k lang = getLanguageIndexKey i18n k lang ∧
      (∀ s, lang = some s → s ≠ "" →
        addDocumentsPhysicalKey i18n k lang = getLanguageIndexKey i18n k lang) ∧
      (∀ c, i18n = some c → c.strategy = I18nStrategy.separateIndex →
        strTruthy lang = false →
        addDocumentsPhysicalKey i18n k lang =
          getLanguageIndexKey i18n k (some c.defaultLanguage)) := by
  intro i18n k lang
  refine ⟨rfl, rfl, ?_, ?_⟩
  · rintro s rfl hs
    cases i18n with
    | none => rfl
    | some c =>
      by_cases hc : c.strategy = I18nStrategy.separateIndex
      · simp [addDocumentsPhysicalKey, hc, jsOrString, hs]
      · simp [addDocumentsPhysicalKey, getLanguageIndexKey, hc]
  · rintro c rfl hc hfalsy
    cases lang with
    | none => simp [addDocumentsPhysicalKey, hc, jsOrString]
    | some s =>
      have hs : s = "" := by
        by_contra hne
        simp [strTruthy, hne] at hfalsy
      subst hs
      simp [addDocumentsPhysicalKey, hc, jsOrString]

/-- Witness for `physical_key_derivation_consistency` at a concrete
configuration: with a language given all keys agree; without one,
`addDocuments` targets the default-language index. -/
theorem physical_key_derivation_consistency_witness :
    addDocumentsPhysicalKey i18nEn "idx" (some "fr") =
      getLanguageIndexKey i18nEn "idx" (some "fr") ∧
    addDocumentsPhysicalKey i18nEn "idx" none =
      getLanguageIndexKey i18nEn "idx" (some "en") := by
  refine ⟨?_, ?_⟩
  · exact (physical_key_derivation_consistency i18nEn "idx" (some "fr")).2.2.1 "fr" rfl
      (by decide)
  · exact (physical_key_derivation_consistency i18nEn "idx" none).2.2.2
      { strategy := .separateIndex, languages := ["en"], defaultLanguage := "en" } rfl rfl
      (by decide)

/-! ## C9: explicit-limit bypass of the batch loop -/

/-- C9 (counterexample): with a supplied `limit = 0` the driver does not
perform a single sync call with that limit — `if (limit)` treats `0` as
absent, the batch loop is entered and the one call made uses the default
batch size `100`, not the supplied limit. -/
theorem limit_zero_enters_batch_loop :
    (meilisearchIndexSyncJob cfgK (windowCaps []) { indexKey := "k", limit := some 0 }
        1).enteredLoop = true ∧
    (meilisearchIndexSyncJob cfgK (windowCaps []) { indexKey := "k", limit := some 0 }
        1).callList ≠ [(some 0, none)] := by
  decide

/-- C9 (amended): for every supplied non-zero limit the driver performs
exactly one single-index sync call with that limit and offset and never
enters the batch loop; a supplied limit of 0 is treated as absent and the
batch loop runs instead. -/
theorem explicit_limit_single_sync_call :
    ∀ (cfg : PluginConfig) (caps : EngineCaps) (data : IndexSyncJobData)
      (fuel n : Nat),
      data.indexKey ≠ "" → data.limit = some n → n ≠ 0 →
      (meilisearchIndexSyncJob cfg caps data fuel).callList =
        [(some n, data.offset)] ∧
      (meilisearchIndexSyncJob cfg caps data fuel).enteredLoop = false := by
  intro cfg caps data fuel n hk hl hn
  have ht : natTruthy data.limit = true := by simp [natTruthy, hl, hn]
  unfold meilisearchIndexSyncJob
  rw [if_neg hk, if_pos ht]
  cases h : syncDocumentsStep cfg caps
      { indexKey := data.indexKey, filters := data.filters
        limit := data.limit, offset := data.offset } with
  | ok p => simp [JobRun.callList, JobRun.enteredLoop, hl]
  | error e => simp [JobRun.callList, JobRun.enteredLoop, hl]

/-- A job input with an explicit non-zero limit. -/
def jobData7 : IndexSyncJobData := { indexKey := "k", limit := some 7, offset := some 3 }

/-- Witness for `explicit_limit_single_sync_call`: a job with `limit = 7`,
`offset = 3` makes exactly the one call `(7, 3)` and never loops. -/
theorem explicit_limit_single_sync_call_witness :
    (meilisearchIndexSyncJob cfgK (windowCaps []) jobData7 1).callList =
      [(some 7, some 3)] ∧
    (meilisearchIndexSyncJob cfgK (windowCaps []) jobData7 1).enteredLoop = false :=
  explicit_limit_single_sync_call cfgK (windowCaps []) jobData7 1 7
    (by decide) rfl (by decide)

/-! ## C10: the built-in products fetcher's query -/

/-- C10 (counterexample): the built-in products fetcher spreads the caller's
filters after the fixed `status: published` entry, so a caller-supplied
`status` key overrides it — the issued query does not include
`status = published` for every caller filters object. -/
theorem builtin_products_status_overridable :
    ¬ ((builtinProductsFetchQuery
          { settings := [("p", { type := some productsType })] }
          [("status", "draft")] (some 5) (some 2)).filters.lookup "status" =
        some "published") := by
  decide

/-- C10 (amended): when an enabled products-type index has no custom fetcher,
the resolver yields the built-in products fetcher, whose query targets the
`product` entity, maps `limit`/`offset` to `take`/`skip`, and carries a
`status` filter that is `published` by default but is overridden by a
caller-supplied `status` entry. -/
theorem builtin_products_fetch_query_shape :
    ∀ (cfg : PluginConfig) (ic : IndexConfig) (k : String)
      (filters : List (String × String)) (limit offset : Option Nat),
      cfg.settings.lookup k = some ic → ic.enabled ≠ some false →
      ic.fetcher = false → ic.type = some productsType →
      getDocumentFetcher cfg k = some .builtinProducts ∧
      (builtinProductsFetchQuery cfg filters limit offset).entity = "product" ∧
      (builtinProductsFetchQuery cfg filters limit offset).take = limit ∧
      (builtinProductsFetchQuery cfg filters limit offset).skip = offset ∧
      (builtinProductsFetchQuery cfg filters limit offset).filters.lookup "status" =
        some ((filters.lookup "status").getD "published") := by
  intro cfg ic k filters limit offset hlk hen hf ht
  refine ⟨?_, rfl, rfl, rfl, ?_⟩
  · unfold getDocumentFetcher
    rw [hlk]
    simp [hen, hf, ht]
  · simp [builtinProductsFetchQuery, spreadMerge, List.lookup]

/-- Witness for `builtin_products_fetch_query_shape` at a concrete products
index, both with and without a caller `status` filter. -/
theorem builtin_products_fetch_query_shape_witness :
    getDocumentFetcher { settings := [("p", { type := some productsType })] } "p" =
      some .builtinProducts ∧
    (builtinProductsFetchQuery { settings := [("p", { type := some productsType })] }
        [("status", "draft")] (some 5) (some 2)).filters.lookup "status" =
      some "draft" ∧
    (builtinProductsFetchQuery { settings := [("p", { type := some productsType })] }
        [] (some 5) (some 2)).filters.lookup "status" = some "published" := by
  have h1 := builtin_products_fetch_query_shape
    { settings := [("p", { type := some productsType })] }
    { type := some productsType } "p" [("status", "draft")] (some 5) (some 2)
    (by decide) (by decide) rfl rfl
  have h2 := builtin_products_fetch_query_shape
    { settings := [("p", { type := some productsType })] }
    { type := some productsType } "p" [] (some 5) (some 2)
    (by decide) (by decide) rfl rfl
  exact ⟨h1.1, h1.2.2.2.2, h2.2.2.2.2⟩

/-! ## C8: the registry's exact output -/

/-- Bridging lemma: a `for`-loop that appends `f e` for each entry is the
`flatMap` of `f`. -/
theorem foldl_append_eq_flatMap {α β : Type} (f : α → List β) :
    ∀ (l : List α) (acc : List β),
      l.foldl (fun a e => a ++ f e) acc = acc ++ l.flatMap f := by
  intro l
  induction l with
  | nil => intro acc; simp
  | cons x t ih => intro acc; simp [ih, List.append_assoc]

theorem getIndexesWithFetchersStep_eq_flatMap (cfg : PluginConfig)
    (language : Option String) :
    getIndexesWithFetchersStep cfg language =
      cfg.settings.flatMap (registryEntry cfg.i18n language) := by
  unfold getIndexesWithFetchersStep
  rw [foldl_append_eq_flatMap]
  simp

/-- The language expansion performed for one surviving entry. -/
def registryExpand (i18n : Option I18nConfig) (language : Option String)
    (e : String × IndexConfig) : List IndexWithFetcher :=
  match i18n with
  | some c =>
    if c.strategy = I18nStrategy.separateIndex ∧ c.languages.length > 0 then
      (targetLanguages language c.languages).map fun l =>
        { indexKey := e.1, type := e.2.type, language := some l }
    else [{ indexKey := e.1, type := e.2.type, language := language }]
  | none => [{ indexKey := e.1, type := e.2.type, language := language }]

theorem registryEntry_eq_guard (i18n : Option I18nConfig) (language : Option String)
    (e : String × IndexConfig) :
    registryEntry i18n language e =
      if !(e.2.enabled == some false) && e.2.fetcher then
        registryExpand i18n language e
      else [] := by
  unfold registryEntry registryExpand
  by_cases h1 : e.2.enabled = some false <;> by_cases h2 : e.2.fetcher <;>
    simp [h1, h2]

theorem flatMap_guard {α β : Type} (p : α → Bool) (g : α → List β) :
    ∀ l : List α,
      (l.flatMap fun e => if p e then g e else []) = (l.filter p).flatMap g := by
  intro l
  induction l with
  | nil => simp
  | cons x t ih => by_cases h : p x <;> simp [h, ih]

theorem flatMap_pure {α β : Type} (g : α → β) :
    ∀ l : List α, (l.flatMap fun e => [g e]) = l.map g := by
  intro l
  induction l with
  | nil => simp
  | cons x t ih => simp [ih]

/-- C8: the registry produces exactly the descriptors described by the spec —
no descriptor for a disabled index, none for an index lacking a (custom)
fetcher capability; under `separate-index` with a non-empty language list one
descriptor per surviving index per language (just the requested language when
one was given); otherwise one per surviving index carrying the caller's
language unmodified; insertion order then language order.  (The requested
language is quantified over genuinely given languages; an empty string is
JS-falsy and not a language.) -/
theorem registry_matches_spec :
    ∀ (cfg : PluginConfig) (language : Option String), language ≠ some "" →
      getIndexesWithFetchersStep cfg language = registrySpec cfg language := by
  intro cfg language hlang
  obtain ⟨settings, i18n⟩ := cfg
  rw [getIndexesWithFetchersStep_eq_flatMap]
  have hfe : registryEntry i18n language = fun e =>
      if !(e.2.enabled == some false) && e.2.fetcher then
        registryExpand i18n language e
      else [] :=
    funext (registryEntry_eq_guard i18n language)
  rw [hfe, flatMap_guard]
  cases i18n with
  | none =>
    have h2 : registryExpand none language = fun e : String × IndexConfig =>
        [{ indexKey := e.1, type := e.2.type, language := language }] := rfl
    rw [h2, flatMap_pure]
    rfl
  | some c =>
    by_cases hcond : c.strategy = I18nStrategy.separateIndex ∧ c.languages ≠ []
    · have hlen : c.strategy = I18nStrategy.separateIndex ∧ c.languages.length > 0 :=
        ⟨hcond.1, List.length_pos.mpr hcond.2⟩
      have h2 : registryExpand (some c) language = fun e : String × IndexConfig =>
          (targetLanguages language c.languages).map fun l =>
            { indexKey := e.1, type := e.2.type, language := some l } := by
        funext e
        simp [registryExpand, hlen]
      rw [h2]
      simp only [registrySpec]
      rw [if_pos hcond]
      cases language with
      | none => rfl
      | some l =>
        have hl : l ≠ "" := fun h => hlang (by rw [h])
        simp [targetLanguages, hl]
    · have hlen : ¬ (c.strategy = I18nStrategy.separateIndex ∧ c.languages.length > 0) := by
        intro h
        exact hcond ⟨h.1, List.length_pos.mp h.2⟩
      have h2 : registryExpand (some c) language = fun e : String × IndexConfig =>
          [{ indexKey := e.1, type := e.2.type, language := language }] := by
        funext e
        simp [registryExpand, hlen]
      rw [h2, flatMap_pure]
      simp only [registrySpec]
      rw [if_neg hcond]

/-- Witness for `registry_matches_spec` on a two-index, two-language
separate-index configuration without a requested language. -/
theorem registry_matches_spec_witness :
    getIndexesWithFetchersStep
        { settings := [("a", { fetcher := true }), ("b", { fetcher := true, enabled := some false })]
          i18n := some { strategy := .separateIndex, languages := ["en", "fr"], defaultLanguage := "en" } }
        none =
      registrySpec
        { settings := [("a", { fetcher := true }), ("b", { fetcher := true, enabled := some false })]
          i18n := some { strategy := .separateIndex, languages := ["en", "fr"], defaultLanguage := "en" } }
        none :=
  registry_matches_spec _ none (by decide)

/-! ## C7: disabled index is a silent no-op -/

/-- With unique keys, lookup of a member pair's key finds exactly that pair. -/
theorem lookup_eq_of_mem_of_nodup :
    ∀ (l : List (String × IndexConfig)) (k : String) (v : IndexConfig),
      keysNodup l → (k, v) ∈ l → l.lookup k = some v := by
  intro l
  induction l with
  | nil => intro k v _ hm; cases hm
  | cons e t ih =>
    intro k v hnd hm
    obtain ⟨k0, v0⟩ := e
    simp only [keysNodup, List.map_cons, List.nodup_cons] at hnd
    cases hm with
    | head => simp [List.lookup]
    | tail _ hm =>
      have hk : k ≠ k0 := by
        intro h
        subst h
        exact hnd.1 (List.mem_map.mpr ⟨(k, v), hm, rfl⟩)
      have hbeq : (k == k0) = false := beq_eq_false_iff_ne.mpr hk
      simp only [List.lookup, hbeq]
      exact ih k v hnd.2 hm

/-- Every descriptor the registry emits for an entry comes from an enabled,
fetcher-bearing configuration and carries that entry's key and type. -/
theorem registryEntry_indexKey_type :
    ∀ (i18n : Option I18nConfig) (language : Option String)
      (e : String × IndexConfig) (d : IndexWithFetcher),
      d ∈ registryEntry i18n language e →
      ¬ e.2.enabled = some false ∧ e.2.fetcher = true ∧
        d.indexKey = e.1 ∧ d.type = e.2.type := by
  intro i18n language e d hd
  unfold registryEntry at hd
  by_cases h1 : e.2.enabled = some false
  · simp [h1] at hd
  · rw [if_neg h1] at hd
    by_cases h2 : e.2.fetcher = true
    · simp only [h2, Bool.not_true, Bool.false_eq_true, if_false] at hd
      refine ⟨h1, h2, ?_⟩
      cases i18n with
      | none =>
        simp only [List.mem_singleton] at hd
        subst hd
        exact ⟨rfl, rfl⟩
      | some c =>
        dsimp only at hd
        by_cases hc : c.strategy = I18nStrategy.separateIndex ∧ c.languages.length > 0
        · rw [if_pos hc] at hd
          obtain ⟨l, _, rfl⟩ := List.mem_map.mp hd
          exact ⟨rfl, rfl⟩
        · rw [if_neg hc] at hd
          simp only [List.mem_singleton] at hd
          subst hd
          exact ⟨rfl, rfl⟩
    · have h2f : e.2.fetcher = false := by
        revert h2
        cases e.2.fetcher <;> simp
      simp [h2f] at hd

/-- C7: an `enabled: false` index configuration is excluded from the
registry's descriptor list, and a direct single-index sync against its key
returns `(documents := [], added := 0, deleted := 0)` with an empty effect
trace — no fetch, probe, write or delete is issued. -/
theorem disabled_index_is_noop :
    ∀ (cfg : PluginConfig) (caps : EngineCaps) (inp : SyncDocumentsStepInput)
      (ic : IndexConfig) (language : Option String),
      keysNodup cfg.settings →
      cfg.settings.lookup inp.indexKey = some ic → ic.enabled = some false →
      (∀ d ∈ getIndexesWithFetchersStep cfg language, d.indexKey ≠ inp.indexKey) ∧
      syncDocumentsStep cfg caps inp = .ok (⟨[], 0, 0⟩, []) := by
  intro cfg caps inp ic language hnd hlk hdis
  constructor
  · intro d hd hkey
    rw [getIndexesWithFetchersStep_eq_flatMap] at hd
    obtain ⟨e, he, hde⟩ := List.mem_flatMap.mp hd
    obtain ⟨hen, _, hik, _⟩ := registryEntry_indexKey_type _ _ _ _ hde
    have hl2 : cfg.settings.lookup e.1 = some e.2 :=
      lookup_eq_of_mem_of_nodup _ _ _ hnd he
    have hkey2 : e.1 = inp.indexKey := hik.symm.trans hkey
    rw [hkey2, hlk] at hl2
    injection hl2 with h
    exact hen (h ▸ hdis)
  · unfold syncDocumentsStep
    rw [hlk]
    simp [hdis]

/-- Witness for `disabled_index_is_noop` on a concrete disabled
configuration. -/
theorem disabled_index_is_noop_witness :
    (∀ d ∈ getIndexesWithFetchersStep
        { settings := [("off", { fetcher := true, enabled := some false })] } none,
      d.indexKey ≠ "off") ∧
    syncDocumentsStep
        { settings := [("off", { fetcher := true, enabled := some false })] }
        (windowCaps []) { indexKey := "off" } = .ok (⟨[], 0, 0⟩, []) :=
  disabled_index_is_noop
    { settings := [("off", { fetcher := true, enabled := some false })] }
    (windowCaps []) { indexKey := "off" }
    { fetcher := true, enabled := some false } none
    (by simp [keysNodup]) rfl rfl

/-! ## C2: an honest membership probe never produces deletions -/

/-- Boolean check that a trace contains no `deleteDocuments` call. -/
def noDeleteCalls (tr : List Effect) : Bool := tr.all fun e => !e.isDeleteCall

theorem noDeleteCalls_append (a b : List Effect) :
    noDeleteCalls (a ++ b) = (noDeleteCalls a && noDeleteCalls b) := by
  simp [noDeleteCalls]

/-- The deletion set is empty whenever every probed hit is a fetched id. -/
theorem filter_not_contains_nil {E D : List String} (h : ∀ i ∈ E, i ∈ D) :
    E.filter (fun i => !(D.contains i)) = [] := by
  rw [List.filter_eq_nil_iff]
  intro a ha
  simp [List.contains, List.elem_iff, h a ha]

/-- A fetch stage's trace is empty or a single fetch call. -/
theorem fetchDocuments_trace (cfg : PluginConfig) (caps : EngineCaps) (k : String)
    (filters : List (String × String)) (lim off : Option Nat) (lang : Option String) :
    (fetchDocuments cfg caps k filters lim off lang).2 = [] ∨
    (fetchDocuments cfg caps k filters lim off lang).2 = [Effect.fetchCall k] := by
  unfold fetchDocuments
  cases getDocumentFetcher cfg k <;> simp

theorem noDeleteCalls_of_fetch {cfg : PluginConfig} {caps : EngineCaps} {k : String}
    {filters : List (String × String)} {lim off : Option Nat} {lang : Option String}
    {r : Except String (List Doc)} {tr0 : List Effect}
    (heq : fetchDocuments cfg caps k filters lim off lang = (r, tr0)) :
    noDeleteCalls tr0 = true := by
  have h := fetchDocuments_trace cfg caps k filters lim off lang
  rw [heq] at h
  simp only at h
  rcases h with h | h <;> rw [h] <;> rfl

theorem probeStage_fst_mem (caps : EngineCaps) (k : String) (lang : Option String)
    (ids : List String) (tr0 : List Effect)
    (hon : ∀ hits, caps.probe k lang ids = .ok hits → ∀ i ∈ hits, i ∈ ids) :
    ∀ i ∈ (probeStage caps k lang ids tr0).1, i ∈ ids := by
  intro i hi
  unfold probeStage at hi
  split at hi
  · cases hi
  · split at hi
    · next hits heqp =>
      exact hon hits heqp i hi
    · cases hi

theorem probeStage_snd_noDelete (caps : EngineCaps) (k : String) (lang : Option String)
    (ids : List String) (tr0 : List Effect) (h0 : noDeleteCalls tr0 = true) :
    noDeleteCalls (probeStage caps k lang ids tr0).2 = true := by
  unfold probeStage
  split
  · exact h0
  · split <;> (dsimp only; rw [noDeleteCalls_append, h0]; rfl)

/-- Single-index sync half of C2. -/
theorem syncDocumentsStep_honest_no_delete
    (cfg : PluginConfig) (caps : EngineCaps) (inp : SyncDocumentsStepInput)
    (hon : ∀ ids hits, caps.probe inp.indexKey inp.language ids = .ok hits →
      ∀ i ∈ hits, i ∈ ids) :
    ∀ res tr, syncDocumentsStep cfg caps inp = .ok (res, tr) →
      res.deleted = 0 ∧ noDeleteCalls tr = true := by
  intro res tr h
  unfold syncDocumentsStep at h
  split at h
  · cases h
    exact ⟨rfl, rfl⟩
  · split at h
    · cases h
      exact ⟨rfl, rfl⟩
    · split at h
      · cases h
      · next documents tr0 heq =>
        split at h
        · cases h
          exact ⟨rfl, noDeleteCalls_of_fetch heq⟩
        · have hfil : (probeStage caps inp.indexKey inp.language
              (docIds documents) tr0).1.filter
                (fun i => !((docIds documents).contains i)) = [] :=
            filter_not_contains_nil
              (probeStage_fst_mem caps inp.indexKey inp.language (docIds documents) tr0
                (fun hits => hon (docIds documents) hits))
          dsimp only at h
          split at h
          · cases h
          · rw [hfil] at h
            simp only [List.isEmpty_nil, if_true, List.length_nil] at h
            cases h
            refine ⟨rfl, ?_⟩
            rw [noDeleteCalls_append,
              probeStage_snd_noDelete caps inp.indexKey inp.language (docIds documents)
                tr0 (noDeleteCalls_of_fetch heq)]
            rfl

/-- Bulk per-descriptor half of C2. -/
theorem syncOneIndex_honest_no_delete
    (cfg : PluginConfig) (caps : EngineCaps) (filters : List (String × String))
    (limit offset : Option Nat) (d : IndexWithFetcher)
    (hon : ∀ ids hits, caps.probe d.indexKey d.language ids = .ok hits →
      ∀ i ∈ hits, i ∈ ids) :
    (syncOneIndex cfg caps filters limit offset d).1.deleted = 0 ∧
    noDeleteCalls (syncOneIndex cfg caps filters limit offset d).2 = true := by
  rcases hsi : syncOneIndex cfg caps filters limit offset d with ⟨r, tr⟩
  unfold syncOneIndex at hsi
  split at hsi
  · cases hsi
    exact ⟨rfl, rfl⟩
  · split at hsi
    · cases hsi
      exact ⟨rfl, rfl⟩
    · split at hsi
      · next e trf heq =>
        cases hsi
        exact ⟨rfl, noDeleteCalls_of_fetch heq⟩
      · next documents tr0 heq =>
        split at hsi
        · cases hsi
          exact ⟨rfl, noDeleteCalls_of_fetch heq⟩
        · have hfil : (probeStage caps d.indexKey d.language
              (docIds documents) tr0).1.filter
                (fun i => !((docIds documents).contains i)) = [] :=
            filter_not_contains_nil
              (probeStage_fst_mem caps d.indexKey d.language (docIds documents) tr0
                (fun hits => hon (docIds documents) hits))
          dsimp only at hsi
          split at hsi
          · cases hsi
            refine ⟨rfl, ?_⟩
            rw [noDeleteCalls_append,
              probeStage_snd_noDelete caps d.indexKey d.language (docIds documents)
                tr0 (noDeleteCalls_of_fetch heq)]
            rfl
          · rw [hfil] at hsi
            simp only [List.isEmpty_nil, if_true, List.length_nil] at hsi
            cases hsi
            refine ⟨rfl, ?_⟩
            rw [noDeleteCalls_append,
              probeStage_snd_noDelete caps d.indexKey d.language (docIds documents)
                tr0 (noDeleteCalls_of_fetch heq)]
            rfl

/-- C2: whenever the search capability honors the bounded-membership filter
(every hit id of an honest probe lies in the probed candidate list), both the
single-index sync step and the bulk per-descriptor sync compute an empty
deletion set: the reported `deleted` count is 0 and no `deleteDocuments` call
appears in the effect trace. -/
theorem honest_probe_never_deletes :
    ∀ (cfg : PluginConfig) (caps : EngineCaps) (inp : SyncDocumentsStepInput)
      (filters : List (String × String)) (limit offset : Option Nat)
      (d : IndexWithFetcher),
      (∀ k lang ids hits, caps.probe k lang ids = .ok hits → ∀ i ∈ hits, i ∈ ids) →
      (∀ res tr, syncDocumentsStep cfg caps inp = .ok (res, tr) →
        res.deleted = 0 ∧ noDeleteCalls tr = true) ∧
      ((syncOneIndex cfg caps filters limit offset d).1.deleted = 0 ∧
        noDeleteCalls (syncOneIndex cfg caps filters limit offset d).2 = true) := by
  intro cfg caps inp filters limit offset d hon
  exact ⟨syncDocumentsStep_honest_no_delete cfg caps inp
      (fun ids hits => hon inp.indexKey inp.language ids hits),
    syncOneIndex_honest_no_delete cfg caps filters limit offset d
      (fun ids hits => hon d.indexKey d.language ids hits)⟩

/-- An engine over a two-document source whose probe honestly reports exactly
the probed candidate ids. -/
def honestCaps : EngineCaps :=
  { windowCaps [⟨some "1", none, ""⟩, ⟨some "2", none, ""⟩] with
      probe := fun _ _ ids => .ok ids }

/-- The step outcome of the honest two-document sync. -/
def honestRes : SyncDocumentsStepResult :=
  ⟨[⟨some "1", none, ""⟩, ⟨some "2", none, ""⟩], 2, 0⟩

/-- The effect trace of the honest two-document sync. -/
def honestTrace : List Effect :=
  [Effect.fetchCall "k", Effect.searchCall "k" none ["1", "2"],
    Effect.addCall "k" none [⟨some "1", none, ""⟩, ⟨some "2", none, ""⟩]]

/-- Witness for `honest_probe_never_deletes`: a two-document window over an
engine whose probe honestly reports exactly the probed ids — zero deletions
and no delete call in the trace. -/
theorem honest_probe_never_deletes_witness :
    syncDocumentsStep cfgK honestCaps { indexKey := "k" } =
      .ok (honestRes, honestTrace) ∧
    honestRes.deleted = 0 ∧ noDeleteCalls honestTrace = true := by
  have he : syncDocumentsStep cfgK honestCaps { indexKey := "k" } =
      .ok (honestRes, honestTrace) := rfl
  refine ⟨he, ?_⟩
  exact (honest_probe_never_deletes cfgK honestCaps { indexKey := "k" }
    [] none none ⟨"k", none, none⟩
    (by
      intro k lang ids hits hp i hi
      simp only [honestCaps, Except.ok.injEq] at hp
      rw [← hp] at hi
      exact hi)).1 honestRes honestTrace he

/-! ## C5: the second of two identical syncs adds N and deletes 0 -/

/-- A resolved fetcher implies a present, enabled configuration. -/
theorem getDocumentFetcher_some_inv (cfg : PluginConfig) (k : String)
    (f : ResolvedFetcher) (h : getDocumentFetcher cfg k = some f) :
    ∃ ic, cfg.settings.lookup k = some ic ∧ ¬ ic.enabled = some false := by
  unfold getDocumentFetcher at h
  split at h
  · cases h
  · next ic hlk =>
    refine ⟨ic, hlk, ?_⟩
    intro hdis
    rw [if_pos hdis] at h
    cases h

/-- A sync run whose fetch yields `docs`, whose probe succeeds with a subset
of the fetched identities, and whose write succeeds, returns
`(docs, docs.length, 0)`. -/
theorem syncDocumentsStep_subset_probe
    (cfg : PluginConfig) (caps : EngineCaps) (inp : SyncDocumentsStepInput)
    (f : ResolvedFetcher) (docs : List Doc) (existing : List String)
    (hf : getDocumentFetcher cfg inp.indexKey = some f)
    (hfetch : caps.fetch inp.indexKey inp.filters inp.language inp.limit inp.offset =
      .ok docs)
    (hp : caps.probe inp.indexKey inp.language (docIds docs) = .ok existing)
    (hsub : ∀ i ∈ existing, i ∈ docIds docs)
    (hadd : caps.add inp.indexKey inp.language docs = .ok ()) :
    (syncDocumentsStep cfg caps inp).map Prod.fst = .ok ⟨docs, docs.length, 0⟩ := by
  obtain ⟨ic, hlk, hen⟩ := getDocumentFetcher_some_inv cfg inp.indexKey f hf
  unfold syncDocumentsStep fetchDocuments
  rw [hlk]
  try dsimp only
  rw [if_neg hen, hf]
  try dsimp only
  rw [hfetch]
  try dsimp only
  by_cases hd : docs.isEmpty
  · rw [if_pos hd]
    have hnil : docs = [] := List.isEmpty_iff.mp hd
    subst hnil
    rfl
  · rw [if_neg hd]
    try dsimp only
    have hfil : (probeStage caps inp.indexKey inp.language (docIds docs)
        [Effect.fetchCall inp.indexKey]).1.filter
          (fun i => !((docIds docs).contains i)) = [] := by
      refine filter_not_contains_nil ?_
      refine probeStage_fst_mem caps inp.indexKey inp.language (docIds docs) _ ?_
      intro hits hph j hj
      rw [hp] at hph
      injection hph with hph
      rw [← hph] at hj
      exact hsub j hj
    rw [hfil, hadd]
    rfl

/-- C5: when the fetch window reproduces the previous run's `docs` and the
membership probe reflects the previous run's writes (it reports exactly the
fetched identities), the sync returns `added = docs.length` and `deleted = 0`
— no duplicate delete, no spurious mutation. -/
theorem second_sync_idempotent :
    ∀ (cfg : PluginConfig) (caps : EngineCaps) (inp : SyncDocumentsStepInput)
      (f : ResolvedFetcher) (docs : List Doc) (existing : List String),
      getDocumentFetcher cfg inp.indexKey = some f →
      caps.fetch inp.indexKey inp.filters inp.language inp.limit inp.offset = .ok docs →
      caps.probe inp.indexKey inp.language (docIds docs) = .ok existing →
      (∀ i, i ∈ existing ↔ i ∈ docIds docs) →
      caps.add inp.indexKey inp.language docs = .ok () →
      (syncDocumentsStep cfg caps inp).map Prod.fst = .ok ⟨docs, docs.length, 0⟩ := by
  intro cfg caps inp f docs existing hf hfetch hp hiff hadd
  exact syncDocumentsStep_subset_probe cfg caps inp f docs existing hf hfetch hp
    (fun i hi => (hiff i).mp hi) hadd

/-- Witness for `second_sync_idempotent`: the honest two-document engine
yields `added = 2, deleted = 0`. -/
theorem second_sync_idempotent_witness :
    (syncDocumentsStep cfgK honestCaps { indexKey := "k" }).map Prod.fst =
      .ok ⟨[⟨some "1", none, ""⟩, ⟨some "2", none, ""⟩], 2, 0⟩ :=
  second_sync_idempotent cfgK honestCaps { indexKey := "k" } .custom
    [⟨some "1", none, ""⟩, ⟨some "2", none, ""⟩] ["1", "2"]
    rfl rfl rfl (fun _ => Iff.rfl) rfl

/-! ## C4: batch termination over a 250-document source -/

theorem exists_trace_of_map_fst
    {e : Except String (SyncDocumentsStepResult × List Effect)}
    {r : SyncDocumentsStepResult} (h : e.map Prod.fst = .ok r) :
    ∃ tr, e = .ok (r, tr) := by
  cases e with
  | error msg => simp [Except.map] at h
  | ok p =>
    simp only [Except.map, Except.ok.injEq] at h
    exact ⟨p.2, by rw [← h]⟩

/-- One batch window over the `min(limit, remaining)` source: the step
returns the window with `added` its size and `deleted = 0`. -/
theorem syncDocumentsStep_window (docs : List Doc) (lim off : Nat) :
    ∃ tr, syncDocumentsStep cfgK (windowCaps docs)
        { indexKey := "k", limit := some lim, offset := some off } =
      .ok (⟨(docs.drop off).take lim, ((docs.drop off).take lim).length, 0⟩, tr) :=
  exists_trace_of_map_fst
    (syncDocumentsStep_subset_probe cfgK (windowCaps docs)
      { indexKey := "k", limit := some lim, offset := some off } .custom
      ((docs.drop off).take lim) [] rfl rfl rfl (by intro i hi; cases hi) rfl)

/-- One unfolding of the batch loop. -/
theorem batchLoop_succ (cfg : PluginConfig) (caps : EngineCaps)
    (data : IndexSyncJobData) (fuel off tA tD : Nat)
    (calls : List (Option Nat × Option Nat)) :
    batchLoop cfg caps data (fuel + 1) off tA tD calls =
      (match syncDocumentsStep cfg caps
          { indexKey := data.indexKey, filters := data.filters
            limit := some (data.batchSize.getD 100), offset := some off } with
      | .error e =>
        .failed e (calls ++ [(some (data.batchSize.getD 100), some off)]) true
      | .ok (r, _) =>
        if r.documents.length < data.batchSize.getD 100 then
          .done (tA + r.added) (tD + r.deleted)
            (calls ++ [(some (data.batchSize.getD 100), some off)]) true
        else
          batchLoop cfg caps data fuel (off + data.batchSize.getD 100)
            (tA + r.added) (tD + r.deleted)
            (calls ++ [(some (data.batchSize.getD 100), some off)])) := rfl

/-- C4: over any source of exactly 250 documents whose fetcher returns
`min(limit, remaining)` per window, the driver with `batchSize = 100` (the
default) and no caller limit performs exactly the three sync calls
`(100, 0), (100, 100), (100, 200)`, stops after the short 50-document window,
and accumulates `totalAdded = 250`. -/
theorem batch_driver_three_windows :
    ∀ docs : List Doc, docs.length = 250 →
      meilisearchIndexSyncJob cfgK (windowCaps docs) { indexKey := "k" } 3 =
        .done 250 0 [(some 100, some 0), (some 100, some 100), (some 100, some 200)]
          true := by
  intro docs h250
  have l0 : ((docs.drop 0).take 100).length = 100 := by
    simp [List.length_take, List.length_drop, h250]
  have l1 : ((docs.drop 100).take 100).length = 100 := by
    simp [List.length_take, List.length_drop, h250]
  have l2 : ((docs.drop 200).take 100).length = 50 := by
    simp [List.length_take, List.length_drop, h250]
  obtain ⟨t0, e0⟩ := syncDocumentsStep_window docs 100 0
  obtain ⟨t1, e1⟩ := syncDocumentsStep_window docs 100 100
  obtain ⟨t2, e2⟩ := syncDocumentsStep_window docs 100 200
  unfold meilisearchIndexSyncJob
  rw [if_neg (by decide), if_neg (by decide)]
  show batchLoop cfgK (windowCaps docs) { indexKey := "k" } (2 + 1) 0 0 0 [] = _
  rw [batchLoop_succ]
  dsimp only
  simp only [Option.getD_none]
  rw [e0]
  dsimp only
  rw [l0, if_neg (by decide)]
  show batchLoop cfgK (windowCaps docs) { indexKey := "k" } (1 + 1) 100 100 0
      [(some 100, some 0)] = _
  rw [batchLoop_succ]
  dsimp only
  simp only [Option.getD_none]
  rw [e1]
  dsimp only
  rw [l1, if_neg (by decide)]
  show batchLoop cfgK (windowCaps docs) { indexKey := "k" } (0 + 1) 200 200 0
      [(some 100, some 0), (some 100, some 100)] = _
  rw [batchLoop_succ]
  dsimp only
  simp only [Option.getD_none]
  rw [e2]
  dsimp only
  rw [l2, if_pos (by decide)]
  rfl

/-- Witness for `batch_driver_three_windows` at a concrete 250-document
source. -/
theorem batch_driver_three_windows_witness :
    meilisearchIndexSyncJob cfgK
        (windowCaps (List.replicate 250 (⟨none, none, ""⟩ : Doc)))
        { indexKey := "k" } 3 =
      .done 250 0 [(some 100, some 0), (some 100, some 100), (some 100, some 200)]
        true :=
  batch_driver_three_windows (List.replicate 250 ⟨none, none, ""⟩)
    (List.length_replicate 250 _)

/-! ## C3: partial-failure isolation in the bulk orchestrator -/

/-- All of a descriptor's engine operations succeed: its fetch resolves to a
document list, its probe answers, and its writes and deletes are accepted. -/
def descOpsOk (caps : EngineCaps) (filters : List (String × String))
    (limit offset : Option Nat) (d : IndexWithFetcher) : Prop :=
  (∃ ds, caps.fetch d.indexKey filters d.language limit offset = .ok ds) ∧
  (∀ ids, ∃ hits, caps.probe d.indexKey d.language ids = .ok hits) ∧
  (∀ docs, caps.add d.indexKey d.language docs = .ok ()) ∧
  (∀ ids, caps.del d.indexKey d.language ids = .ok ())

/-- A succeeding fetch capability means the fetch stage yields an `ok`
document list (the fetched one, or `[]` when no fetcher resolves). -/
theorem fetchDocuments_fst_ok (cfg : PluginConfig) {caps : EngineCaps} {k : String}
    {filters : List (String × String)} {lim off : Option Nat} {lang : Option String}
    {ds : List Doc} (hfet : caps.fetch k filters lang lim off = .ok ds) :
    (fetchDocuments cfg caps k filters lim off lang).1 = .ok ds ∨
    (fetchDocuments cfg caps k filters lim off lang).1 = .ok [] := by
  unfold fetchDocuments
  cases getDocumentFetcher cfg k
  · right
    rfl
  · left
    dsimp only
    exact hfet

/-- When every operation of a descriptor succeeds, its isolated sync reports
success. -/
theorem syncOneIndex_success_of_ok (cfg : PluginConfig) (caps : EngineCaps)
    (filters : List (String × String)) (limit offset : Option Nat)
    (d : IndexWithFetcher) (h : descOpsOk caps filters limit offset d) :
    (syncOneIndex cfg caps filters limit offset d).1.success = true := by
  obtain ⟨⟨ds, hfet⟩, _, hadd, hdel⟩ := h
  rcases hsi : syncOneIndex cfg caps filters limit offset d with ⟨r, tr⟩
  unfold syncOneIndex at hsi
  split at hsi
  · cases hsi
    rfl
  · split at hsi
    · cases hsi
      rfl
    · split at hsi
      · next e trf heq =>
        rcases fetchDocuments_fst_ok cfg hfet with hco | hco <;>
          (rw [heq] at hco; cases hco)
      · next documents tr0 heq =>
        split at hsi
        · cases hsi
          rfl
        · dsimp only at hsi
          split at hsi
          · next e heqa =>
            rw [hadd documents] at heqa
            cases heqa
          · split at hsi
            · cases hsi
              rfl
            · split at hsi
              · next e heqd =>
                rw [hdel _] at heqd
                cases heqd
              · cases hsi
                rfl

/-- A descriptor whose fetcher resolves but whose fetch capability throws
yields exactly the captured failure record. -/
theorem syncOneIndex_fetch_error (cfg : PluginConfig) (caps : EngineCaps)
    (filters : List (String × String)) (limit offset : Option Nat)
    (d : IndexWithFetcher) (msg : String) (f : ResolvedFetcher)
    (hres : getDocumentFetcher cfg d.indexKey = some f)
    (hfet : caps.fetch d.indexKey filters d.language limit offset = .error msg) :
    (syncOneIndex cfg caps filters limit offset d).1 =
      ⟨d.indexKey, d.language, false, [], 0, 0, some msg⟩ := by
  obtain ⟨ic, hlk, hen⟩ := getDocumentFetcher_some_inv cfg d.indexKey f hres
  unfold syncOneIndex fetchDocuments
  rw [hlk]
  try dsimp only
  rw [if_neg hen, hres]
  try dsimp only
  rw [hfet]

/-- Counting with exactly one failing position: `p` holds everywhere except
at index `j`, so `countP p = length - 1` and the complement count is 1. -/
theorem countP_all_but_one {α : Type} (p : α → Bool) :
    ∀ (l : List α) (j : Nat) (hj : j < l.length),
      p (l.get ⟨j, hj⟩) = false →
      (∀ i (hi : i < l.length), i ≠ j → p (l.get ⟨i, hi⟩) = true) →
      l.countP p = l.length - 1 ∧ l.countP (fun a => !(p a)) = 1 := by
  intro l
  induction l with
  | nil =>
    intro j hj
    exact absurd hj (by simp)
  | cons x t ih =>
    intro j hj hpj hrest
    cases j with
    | zero =>
      have hx : p x = false := hpj
      have ht : ∀ a ∈ t, p a = true := by
        intro a ha
        obtain ⟨⟨i, hi⟩, rfl⟩ := List.mem_iff_get.mp ha
        exact hrest (i + 1) (by simpa using Nat.succ_lt_succ hi) (by simp)
      constructor
      · rw [List.countP_cons]
        simp only [hx, if_false]
        rw [List.countP_eq_length.mpr ht]
        simp
      · rw [List.countP_cons]
        simp only [hx, Bool.not_false, if_true]
        rw [List.countP_eq_zero.mpr (fun a ha => by simp [ht a ha])]
    | succ k =>
      have hx : p x = true := hrest 0 (by simp) (by simp)
      have hj' : k < t.length := by simpa using hj
      have h1 : p (t.get ⟨k, hj'⟩) = false := hpj
      have hrest' : ∀ i (hi : i < t.length), i ≠ k → p (t.get ⟨i, hi⟩) = true :=
        fun i hi hik =>
          hrest (i + 1) (by simpa using Nat.succ_lt_succ hi) (by simpa using hik)
      obtain ⟨ih1, ih2⟩ := ih k hj' h1 hrest'
      constructor
      · rw [List.countP_cons, ih1]
        simp only [hx, if_true, List.length_cons]
        omega
      · rw [List.countP_cons, ih2]
        simp [hx]

/-- The totals fold counts successes and failures. -/
theorem bulkTotals_counts :
    ∀ results : List IndexSyncResult,
      (bulkTotals results).successful = results.countP (fun r => r.success) ∧
      (bulkTotals results).failed = results.countP (fun r => !r.success) := by
  have main : ∀ (results : List IndexSyncResult) (a : BulkTotals),
      (results.foldl
        (fun a r =>
          { successful := a.successful + (if r.success then 1 else 0)
            failed := a.failed + (if r.success then 0 else 1)
            documents := a.documents + r.documents.length
            added := a.added + r.added
            deleted := a.deleted + r.deleted }) a).successful =
        a.successful + results.countP (fun r => r.success) ∧
      (results.foldl
        (fun a r =>
          { successful := a.successful + (if r.success then 1 else 0)
            failed := a.failed + (if r.success then 0 else 1)
            documents := a.documents + r.documents.length
            added := a.added + r.added
            deleted := a.deleted + r.deleted }) a).failed =
        a.failed + results.countP (fun r => !r.success) := by
    intro results
    induction results with
    | nil => intro a; simp
    | cons r t ih =>
      intro a
      simp only [List.foldl_cons]
      obtain ⟨ih1, ih2⟩ := ih
        { successful := a.successful + (if r.success then 1 else 0)
          failed := a.failed + (if r.success then 0 else 1)
          documents := a.documents + r.documents.length
          added := a.added + r.added
          deleted := a.deleted + r.deleted }
      constructor
      · rw [ih1, List.countP_cons]
        cases hr : r.success <;> (simp [hr]; try omega)
      · rw [ih2, List.countP_cons]
        cases hr : r.success <;> (simp [hr]; try omega)
  intro results
  obtain ⟨h1, h2⟩ := main results {}
  exact ⟨by rw [bulkTotals, h1]; simp, by rw [bulkTotals, h2]; simp⟩

/-- The bulk step's result list is the per-descriptor isolated sync, in
order. -/
theorem bulkSyncDocumentsStep_results (cfg : PluginConfig) (caps : EngineCaps)
    (filters : List (String × String)) (limit offset : Option Nat)
    (descs : List IndexWithFetcher) :
    (bulkSyncDocumentsStep cfg caps filters limit offset descs).1.results =
      descs.map (fun d => (syncOneIndex cfg caps filters limit offset d).1) := by
  unfold bulkSyncDocumentsStep
  dsimp only
  rw [List.map_map]
  rfl

/-- C3: with exactly one descriptor whose fetch capability throws (and whose
fetcher resolves) and every other descriptor's fetch, probe, write and delete
succeeding, the bulk orchestrator reports `totalProcessed = N`,
`totalFailed = 1`, `totalSuccessful = N - 1`; the failing entry carries
`success := false`, the captured non-empty error, no documents and zero
counts; and every sibling entry succeeds and equals the result it would have
had run alone. -/
theorem bulk_partial_failure_isolation :
    ∀ (cfg : PluginConfig) (caps : EngineCaps) (filters : List (String × String))
      (limit offset : Option Nat) (descs : List IndexWithFetcher) (j : Nat)
      (hj : j < descs.length) (msg : String) (f : ResolvedFetcher),
      msg ≠ "" →
      getDocumentFetcher cfg (descs.get ⟨j, hj⟩).indexKey = some f →
      caps.fetch (descs.get ⟨j, hj⟩).indexKey filters (descs.get ⟨j, hj⟩).language
        limit offset = .error msg →
      (∀ i (hi : i < descs.length), i ≠ j →
        descOpsOk caps filters limit offset (descs.get ⟨i, hi⟩)) →
      (bulkSyncDocumentsStep cfg caps filters limit offset descs).1.totalProcessed =
          descs.length ∧
      (bulkSyncDocumentsStep cfg caps filters limit offset descs).1.totalFailed = 1 ∧
      (bulkSyncDocumentsStep cfg caps filters limit offset descs).1.totalSuccessful =
          descs.length - 1 ∧
      (∀ hjr : j <
          (bulkSyncDocumentsStep cfg caps filters limit offset descs).1.results.length,
        (bulkSyncDocumentsStep cfg caps filters limit offset descs).1.results.get
            ⟨j, hjr⟩ =
          ⟨(descs.get ⟨j, hj⟩).indexKey, (descs.get ⟨j, hj⟩).language, false, [], 0, 0,
            some msg⟩ ∧
        ((bulkSyncDocumentsStep cfg caps filters limit offset descs).1.results.get
            ⟨j, hjr⟩).error ≠ some "") ∧
      (∀ i (hi : i < descs.length)
        (hir : i <
          (bulkSyncDocumentsStep cfg caps filters limit offset descs).1.results.length),
        i ≠ j →
        ((bulkSyncDocumentsStep cfg caps filters limit offset descs).1.results.get
            ⟨i, hir⟩).success = true ∧
        (bulkSyncDocumentsStep cfg caps filters limit offset descs).1.results.get
            ⟨i, hir⟩ =
          (syncOneIndex cfg caps filters limit offset (descs.get ⟨i, hi⟩)).1) := by
  intro cfg caps filters limit offset descs j hj msg f hmsg hres hfet hok
  have hresults := bulkSyncDocumentsStep_results cfg caps filters limit offset descs
  have hpj : ((fun d => (syncOneIndex cfg caps filters limit offset d).1)
      (descs.get ⟨j, hj⟩)).success = false := by
    dsimp only
    rw [syncOneIndex_fetch_error cfg caps filters limit offset _ msg f hres hfet]
  have hpi : ∀ i (hi : i < descs.length), i ≠ j →
      ((fun d => (syncOneIndex cfg caps filters limit offset d).1)
        (descs.get ⟨i, hi⟩)).success = true :=
    fun i hi hij =>
      syncOneIndex_success_of_ok cfg caps filters limit offset _ (hok i hi hij)
  have hcount := countP_all_but_one
    (fun d => (syncOneIndex cfg caps filters limit offset d).1.success)
    descs j hj hpj hpi
  have hcounts := bulkTotals_counts
    (descs.map fun d => (syncOneIndex cfg caps filters limit offset d).1)
  have hmap : ∀ (i : Nat) (hi : i < descs.length)
      (fi : Fin (descs.map fun d =>
        (syncOneIndex cfg caps filters limit offset d).1).length),
      fi.val = i →
      (descs.map fun d => (syncOneIndex cfg caps filters limit offset d).1).get fi =
        (syncOneIndex cfg caps filters limit offset (descs.get ⟨i, hi⟩)).1 := by
    intro i hi fi hval
    obtain ⟨v, hv⟩ := fi
    dsimp only at hval
    subst hval
    rw [List.get_eq_getElem, List.getElem_map]
    rfl
  refine ⟨rfl, ?_, ?_, ?_, ?_⟩
  · have hdef : (bulkSyncDocumentsStep cfg caps filters limit offset descs).1.totalFailed =
        (bulkTotals ((bulkSyncDocumentsStep cfg caps filters limit offset
          descs).1.results)).failed := rfl
    rw [hdef, hresults, hcounts.2, List.countP_map]
    exact hcount.2
  · have hdef : (bulkSyncDocumentsStep cfg caps filters limit offset
        descs).1.totalSuccessful =
        (bulkTotals ((bulkSyncDocumentsStep cfg caps filters limit offset
          descs).1.results)).successful := rfl
    rw [hdef, hresults, hcounts.1, List.countP_map]
    exact hcount.1
  · intro hjr
    have hg := List.get_of_eq hresults ⟨j, hjr⟩
    rw [hg, hmap j hj _ rfl,
      syncOneIndex_fetch_error cfg caps filters limit offset _ msg f hres hfet]
    exact ⟨rfl, by simpa using hmsg⟩
  · intro i hi hir hij
    have hg := List.get_of_eq hresults ⟨i, hir⟩
    rw [hg, hmap i hi _ rfl]
    exact ⟨hpi i hi hij, rfl⟩

/-- A two-index configuration whose `bad` index's fetch throws. -/
def cfg3 : PluginConfig :=
  { settings := [("good", { fetcher := true }), ("bad", { fetcher := true })] }

/-- Capabilities where only the `bad` index's fetch throws. -/
def caps3 : EngineCaps :=
  { fetch := fun k _ _ _ _ =>
      if k = "bad" then .error "boom" else .ok [⟨some "1", none, ""⟩]
    probe := fun _ _ ids => .ok ids
    add := fun _ _ _ => .ok ()
    del := fun _ _ _ => .ok () }

/-- The two descriptors of `cfg3`. -/
def descs3 : List IndexWithFetcher := [⟨"good", none, none⟩, ⟨"bad", none, none⟩]

/-- Witness for `bulk_partial_failure_isolation`: two descriptors, the second
one failing its fetch, give totals `2 / 1 failed / 1 successful`. -/
theorem bulk_partial_failure_isolation_witness :
    (bulkSyncDocumentsStep cfg3 caps3 [] none none descs3).1.totalProcessed = 2 ∧
    (bulkSyncDocumentsStep cfg3 caps3 [] none none descs3).1.totalFailed = 1 ∧
    (bulkSyncDocumentsStep cfg3 caps3 [] none none descs3).1.totalSuccessful = 1 := by
  have h := bulk_partial_failure_isolation cfg3 caps3 [] none none descs3 1
    (by decide) "boom" .custom (by decide) rfl rfl
    (by
      intro i hi hij
      match i with
      | 0 =>
        exact ⟨⟨[⟨some "1", none, ""⟩], rfl⟩, fun ids => ⟨ids, rfl⟩,
          fun docs => rfl, fun ids => rfl⟩
      | 1 => exact absurd rfl hij
      | i + 2 =>
        exfalso
        simp [descs3] at hi)
  exact ⟨h.1, h.2.1, h.2.2.1⟩

/-! ## C6: disjointness of physical keys under separate-index -/

/-- A two-index, two-language configuration whose keys and language codes
contain underscores. -/
def cfg6 : PluginConfig :=
  { settings := [("a", { fetcher := true }), ("a_x", { fetcher := true })]
    i18n := some { strategy := .separateIndex, languages := ["x_y", "y"]
                   defaultLanguage := "y" } }

/-- C6 (counterexample): the registry under separate-index can emit two
distinct descriptors whose derived physical keys coincide — `("a", "x_y")`
and `("a_x", "y")` both map to `"a_x_y"` — so physical keys are not disjoint
over arbitrary index-key and language-code strings. -/
theorem registry_physical_key_collision :
    (⟨"a", none, some "x_y"⟩ : IndexWithFetcher) ∈
        getIndexesWithFetchersStep cfg6 none ∧
    (⟨"a_x", none, some "y"⟩ : IndexWithFetcher) ∈
        getIndexesWithFetchersStep cfg6 none ∧
    (⟨"a", none, some "x_y"⟩ : IndexWithFetcher) ≠ ⟨"a_x", none, some "y"⟩ ∧
    getLanguageIndexKey cfg6.i18n "a" (some "x_y") =
      getLanguageIndexKey cfg6.i18n "a_x" (some "y") := by
  decide

/-- No character of `s` is an underscore. -/
def underscoreFree (s : String) : Bool := s.data.all fun c => c != '_'

theorem takeWhile_underscore (v : List Char) :
    ∀ u : List Char, (∀ c ∈ u, (c != '_') = true) →
      (u ++ '_' :: v).takeWhile (fun c => c != '_') = u ∧
      (u ++ '_' :: v).dropWhile (fun c => c != '_') = '_' :: v := by
  intro u
  induction u with
  | nil =>
    intro _
    constructor
    · simp [List.takeWhile]
    · simp [List.dropWhile]
  | cons c u ih =>
    intro h
    have hc : (c != '_') = true := h c (by simp)
    obtain ⟨ih1, ih2⟩ := ih (fun x hx => h x (by simp [hx]))
    constructor
    · simp only [List.cons_append, List.takeWhile_cons, hc, if_true, ih1]
    · simp only [List.cons_append, List.dropWhile_cons, hc, if_true, ih2]

/-- Underscore-joined keys cancel: if the language parts are underscore-free,
`k1 ++ "_" ++ l1 = k2 ++ "_" ++ l2` forces both parts equal. -/
theorem underscore_append_cancel (k1 l1 k2 l2 : String)
    (h1 : underscoreFree l1 = true) (h2 : underscoreFree l2 = true)
    (he : k1 ++ "_" ++ l1 = k2 ++ "_" ++ l2) : k1 = k2 ∧ l1 = l2 := by
  have hd : k1.data ++ '_' :: l1.data = k2.data ++ '_' :: l2.data := by
    have h := congrArg String.data he
    simpa [String.data_append] using h
  have hrev : l1.data.reverse ++ '_' :: k1.data.reverse =
      l2.data.reverse ++ '_' :: k2.data.reverse := by
    have h := congrArg List.reverse hd
    simpa [List.reverse_append] using h
  have g1 : ∀ c ∈ l1.data.reverse, (c != '_') = true := by
    intro c hc
    exact List.all_eq_true.mp h1 c (List.mem_reverse.mp hc)
  have g2 : ∀ c ∈ l2.data.reverse, (c != '_') = true := by
    intro c hc
    exact List.all_eq_true.mp h2 c (List.mem_reverse.mp hc)
  obtain ⟨ta1, da1⟩ := takeWhile_underscore k1.data.reverse l1.data.reverse g1
  obtain ⟨ta2, da2⟩ := takeWhile_underscore k2.data.reverse l2.data.reverse g2
  have hltake : l1.data.reverse = l2.data.reverse := by
    rw [← ta1, ← ta2, hrev]
  have hkdrop : ('_' :: k1.data.reverse : List Char) = '_' :: k2.data.reverse := by
    rw [← da1, ← da2, hrev]
  have hl : l1.data = l2.data := by
    have h := congrArg List.reverse hltake
    simpa using h
  have hk : k1.data = k2.data := by
    injection hkdrop with _ h
    have h2r := congrArg List.reverse h
    simpa using h2r
  constructor
  · cases k1
    cases k2
    exact congrArg String.mk hk
  · cases l1
    cases l2
    exact congrArg String.mk hl

/-- Under separate-index, the registry assigns every descriptor a language
from the target list. -/
theorem registryEntry_language (c : I18nConfig) (language : Option String)
    (e : String × IndexConfig) (d : IndexWithFetcher)
    (hs : c.strategy = I18nStrategy.separateIndex) (hl : c.languages ≠ [])
    (hd : d ∈ registryEntry (some c) language e) :
    ∃ l ∈ targetLanguages language c.languages, d.language = some l := by
  unfold registryEntry at hd
  by_cases h1 : e.2.enabled = some false
  · simp [h1] at hd
  · rw [if_neg h1] at hd
    by_cases h2 : e.2.fetcher = true
    · simp only [h2, Bool.not_true, Bool.false_eq_true, if_false] at hd
      try dsimp only at hd
      rw [if_pos ⟨hs, List.length_pos.mpr hl⟩] at hd
      obtain ⟨l, hlm, rfl⟩ := List.mem_map.mp hd
      exact ⟨l, hlm, rfl⟩
    · have h2f : e.2.fetcher = false := by
        revert h2
        cases e.2.fetcher <;> simp
      simp [h2f] at hd

theorem getLanguageIndexKey_sep (c : I18nConfig) (k l : String)
    (hs : c.strategy = I18nStrategy.separateIndex) (hl : l ≠ "") :
    getLanguageIndexKey (some c) k (some l) = k ++ "_" ++ l := by
  simp [getLanguageIndexKey, hs, hl]

/-- C6 (amended): under the separate-index strategy with unique configuration
keys, any two distinct descriptors produced by the registry derive distinct
physical index keys, provided every target language code is non-empty and
contains no underscore (index keys may be arbitrary); with underscore-bearing
language codes the keys can collide. -/
theorem registry_separate_keys_disjoint :
    ∀ (cfg : PluginConfig) (c : I18nConfig) (language : Option String)
      (d1 d2 : IndexWithFetcher),
      cfg.i18n = some c → c.strategy = I18nStrategy.separateIndex →
      c.languages ≠ [] → keysNodup cfg.settings →
      (∀ l ∈ targetLanguages language c.languages,
        l ≠ "" ∧ underscoreFree l = true) →
      d1 ∈ getIndexesWithFetchersStep cfg language →
      d2 ∈ getIndexesWithFetchersStep cfg language →
      d1 ≠ d2 →
      getLanguageIndexKey cfg.i18n d1.indexKey d1.language ≠
        getLanguageIndexKey cfg.i18n d2.indexKey d2.language := by
  intro cfg c language d1 d2 hc hs hl hnd hgood h1 h2 hne heq
  rw [getIndexesWithFetchersStep_eq_flatMap] at h1 h2
  obtain ⟨e1, he1, hde1⟩ := List.mem_flatMap.mp h1
  obtain ⟨e2, he2, hde2⟩ := List.mem_flatMap.mp h2
  rw [hc] at hde1 hde2
  obtain ⟨hen1, hf1, hik1, hty1⟩ := registryEntry_indexKey_type _ _ _ _ hde1
  obtain ⟨hen2, hf2, hik2, hty2⟩ := registryEntry_indexKey_type _ _ _ _ hde2
  obtain ⟨la, hla, hdla⟩ := registryEntry_language c language e1 d1 hs hl hde1
  obtain ⟨lb, hlb, hdlb⟩ := registryEntry_language c language e2 d2 hs hl hde2
  obtain ⟨hla1, hla2⟩ := hgood la hla
  obtain ⟨hlb1, hlb2⟩ := hgood lb hlb
  rw [hc, hdla, hdlb, getLanguageIndexKey_sep c _ la hs hla1,
    getLanguageIndexKey_sep c _ lb hs hlb1] at heq
  obtain ⟨hkk, hll⟩ := underscore_append_cancel _ _ _ _ hla2 hlb2 heq
  rw [hik1, hik2] at hkk
  have hlook1 := lookup_eq_of_mem_of_nodup cfg.settings e1.1 e1.2 hnd he1
  have hlook2 := lookup_eq_of_mem_of_nodup cfg.settings e2.1 e2.2 hnd he2
  rw [hkk, hlook2] at hlook1
  injection hlook1 with hcfgeq
  apply hne
  have hik : d1.indexKey = d2.indexKey := by rw [hik1, hik2, hkk]
  have hty : d1.type = d2.type := by rw [hty1, hty2, hcfgeq]
  have hlg : d1.language = d2.language := by rw [hdla, hdlb, hll]
  obtain ⟨a1, b1, c1⟩ := d1
  obtain ⟨a2, b2, c2⟩ := d2
  dsimp only at hik hty hlg
  rw [hik, hty, hlg]

/-- Witness for `registry_separate_keys_disjoint`: two descriptors of the
same index for languages `en` and `fr` derive distinct physical keys. -/
theorem registry_separate_keys_disjoint_witness :
    getLanguageIndexKey
        (some { strategy := .separateIndex, languages := ["en", "fr"]
                defaultLanguage := "en" }) "a" (some "en") ≠
      getLanguageIndexKey
        (some { strategy := .separateIndex, languages := ["en", "fr"]
                defaultLanguage := "en" }) "a" (some "fr") :=
  registry_separate_keys_disjoint
    { settings := [("a", { fetcher := true })]
      i18n := some { strategy := .separateIndex, languages := ["en", "fr"]
                     defaultLanguage := "en" } }
    { strategy := .separateIndex, languages := ["en", "fr"], defaultLanguage := "en" }
    none ⟨"a", none, some "en"⟩ ⟨"a", none, some "fr"⟩
    rfl rfl (by decide) (by simp [keysNodup]) (by decide) (by decide) (by decide)
    (by decide)

end MeiliPlugin
